import Mathlib

/-!
Verification of the memory consolidation and context-budget engine of the
`stmem` chat-extension repository.

The main embedded module is the "Titan Memory" variant (src/unnamed/part_003,
near-duplicated in src/index.js):
  * `estimateTokens`   — the token-budget estimator (part_003:218)
  * `handlePruning`    — the retention controller (part_003:199-245)
  * `runSummarization` — the consolidation engine (part_003:248-305)
  * `onNewMessage`     — the trigger policy (part_003:328-344)
  * the wipe handler from `loadSettingsHTML` (part_003:408-415)
  * `cosineSimilarity` / `retrieveRAGContext` — vector retrieval
    (part_003:106-147, src/index.js:664-685)
  * `updateSpecificLorebookEntry` / `processStructuredMemory` — the
    "Librarian" entity merge (src/index.js:688-747)
and the per-message summarizer of the "memory-summarize" variant
(src/index.js:192-258, near-duplicated in src/unnamed/part_001):
  * `triggerAutoSummarize` / `generateSummaryForMessage`.

JavaScript strings are modeled as Lean `String` (lists of characters;
the sources only manipulate them by character).  JavaScript numbers used
for token accounting are modeled as `Rat`; embedding vectors are modeled
as `List Real` in the retrieval module (where a square root occurs) and as
opaque `List Rat` payloads in the state machine (where only storage
matters).  The injected host collaborators (the generation call, the
embedding call, `ctx.getTokenCount`, `Date.now`, the character name) are
parameters of the model, as they are injected dependencies in the source.
-/

namespace Stmem

/-- Pairs each element of a list with its index, starting at `start`.
Models the array indices `i` of the JavaScript `for` loops. -/
def withIndices {α : Type} (start : Nat) : List α → List (Nat × α)
  | [] => []
  | x :: xs => (start, x) :: withIndices (start + 1) xs

/-- Characters treated as whitespace by the model of `String.prototype.trim`
(the sources only ever trim ASCII whitespace). -/
def isJsWhitespace (c : Char) : Bool :=
  c = ' ' || c = '\n' || c = '\t' || c = '\r'

/-- Model of JavaScript `String.prototype.trim`: removes leading and
trailing whitespace. -/
def jsTrim (s : String) : String :=
  String.mk (((s.toList.dropWhile isJsWhitespace).reverse.dropWhile isJsWhitespace).reverse)

/-- Model of JavaScript `String.prototype.toLowerCase` (ASCII range, which
is all the sources compare). -/
def jsToLower (s : String) : String :=
  String.mk (s.toList.map Char.toLower)

/-- Model of JavaScript `String.prototype.substring(0, n)`. -/
def jsTake (s : String) (n : Nat) : String :=
  String.mk (s.toList.take n)

/-- Splits a character list at every occurrence of the (nonempty) pattern,
like JavaScript `String.prototype.split(pattern)`.  `fuel` bounds the
recursion; it is instantiated with the length of the input, which suffices
because every step consumes at least one character. -/
def jsSplitAux (pat : List Char) : Nat → List Char → List Char → List (List Char)
  | 0, acc, cs => [acc.reverse ++ cs]
  | _ + 1, acc, [] => [acc.reverse]
  | fuel + 1, acc, c :: rest =>
    if pat.isPrefixOf (c :: rest) then
      acc.reverse :: jsSplitAux pat fuel [] (List.drop pat.length (c :: rest))
    else
      jsSplitAux pat fuel (c :: acc) rest

/-- Model of JavaScript `String.prototype.split(pat)` for a nonempty
pattern string. -/
def jsSplit (pat s : String) : List String :=
  (jsSplitAux pat.toList s.toList.length [] s.toList).map String.mk

/-- Model of JavaScript `String.prototype.includes(pat)`. -/
def jsIncludes (pat s : String) : Bool :=
  (jsSplit pat s).length > 1

/-- Model of a case-insensitive global replace-with-empty,
`str.replace(/PAT/gi, "")`, for an upper-case pattern `patU`.  `fuel` is
instantiated with the input length (each step consumes at least one
character). -/
def replaceCIAux (patU : List Char) : Nat → List Char → List Char
  | 0, cs => cs
  | _ + 1, [] => []
  | fuel + 1, c :: rest =>
    if (List.take patU.length (c :: rest)).map Char.toUpper = patU then
      replaceCIAux patU fuel (List.drop patU.length (c :: rest))
    else
      c :: replaceCIAux patU fuel rest

/-- `result.replace(/SUMMARY:/gi, "")` (part_003:286). -/
def stripSummaryLabel (s : String) : String :=
  String.mk (replaceCIAux "SUMMARY:".toList s.toList.length s.toList)

/-- Model of JavaScript `String.prototype.replace(pat, repl)` with a plain
string pattern: replaces the first occurrence only. -/
def jsReplaceFirst (s pat repl : String) : String :=
  match jsSplit pat s with
  | [] => s
  | [x] => x
  | x :: rest => x ++ repl ++ String.intercalate pat rest

/-- Bool test for "does `needle` occur as a contiguous substring of
`hay`" (used by the specification side of the entity-merge claim). -/
def isSubstr (needle hay : String) : Bool :=
  (List.range (hay.toList.length + 1)).any
    (fun i => needle.toList.isPrefixOf (hay.toList.drop i))

namespace Titan

/-- The `extension_settings["titan-memory"]` fields read by the embedded
operations (src/unnamed/part_003:17-52, accessed through `getSetting`). -/
structure Settings where
  enabled : Bool
  autosummarize : Bool
  threshold : Nat
  pruningenabled : Bool
  tokenbudget : Rat
  ragenabled : Bool
  lorebooksync : Bool
  prompttemplate : String
deriving Repr, DecidableEq

/-- The injected host collaborators of the titan-memory module.
`getTokenCount` is `ctx.getTokenCount` when the host supplies one;
`embed` is the outcome of `getEmbedding` (part_003:87-104 — `none` covers
a missing API key, empty text, a network error, and a `null` payload);
`charName` is `ctx.characters[ctx.characterId].name` when a character is
selected; `now` is `Date.now()`. -/
structure Env where
  settings : Settings
  getTokenCount : Option (String → Rat)
  embed : String → Option (List Rat)
  charName : Option String
  now : Nat

/-- A chat message as read and written by the module: `msg.name`,
`msg.mes`, and the advisory flag `msg.extra.excludefromcontext`
(a missing `extra` object or flag is `false`). -/
structure ChatMessage where
  name : String
  mes : String
  excludefromcontext : Bool
deriving Repr, DecidableEq

/-- An entry of the `vector_store` chat metadata
(part_003:117-126): truncated text plus its embedding vector.
(`timestamp: Date.now()` is not modeled; no operation reads it.) -/
structure VectorEntry where
  text : String
  vector : List Rat
deriving Repr, DecidableEq

/-- A lorebook entry as read and written by `updateLorebook`
(part_003:150-196); only the fields the module touches are modeled. -/
structure LoreEntry where
  displayName : String
  key : List String
  content : String
deriving Repr, DecidableEq

/-- The mutable state of one conversation scope: the live `chat` array,
the chat metadata of the module (`summary` — `""` models an unset key,
matching the `|| "No history yet."` and wipe behavior — `last_index`,
`last_updated`, `vector_store`), the lorebook, and the module-global
`isProcessing` flag (part_003:54). -/
structure ChatState where
  chat : List ChatMessage
  summary : String
  last_index : Nat
  last_updated : Nat
  vector_store : List VectorEntry
  lorebook : List LoreEntry
  isProcessing : Bool
deriving Repr, DecidableEq

/-- Token estimate of one message (part_003:218):
`ctx.getTokenCount ? ctx.getTokenCount(msg.mes) : (msg.mes.length / 3.5)`. -/
def estimateTokens (getTokenCount : Option (String → Rat)) (mes : String) : Rat :=
  match getTokenCount with
  | some f => f mes
  | none => (mes.length : Rat) / (7 / 2)

/-- The budget actually used by `handlePruning`
(part_003:210, `getSetting("tokenbudget") || 1000`). -/
def budgetOf (env : Env) : Rat :=
  if env.settings.tokenbudget = 0 then 1000 else env.settings.tokenbudget

/-- The backward walk of `handlePruning` (part_003:215-225): starting from
the most recent message, accumulate token estimates; the prune point is the
index at which the running total first exceeds the budget, `-1` if the
budget is never exceeded.  The argument is the enumerated chat in reverse
(most recent first), the accumulator starts at `0`. -/
def prunePointAux (tok : Option (String → Rat)) (budget : Rat) :
    List (Nat × ChatMessage) → Rat → Int
  | [], _ => -1
  | (i, m) :: rest, acc =>
    let acc2 := acc + estimateTokens tok m.mes
    if budget < acc2 then (i : Int) else prunePointAux tok budget rest acc2

/-- `prunePoint` after the backward loop of `handlePruning`. -/
def prunePoint (tok : Option (String → Rat)) (budget : Rat)
    (chat : List ChatMessage) : Int :=
  prunePointAux tok budget (withIndices 0 chat).reverse 0

/-- `archiveMessageAsVector` (part_003:117-126): no-op unless RAG is
enabled and the embedding call yields a vector; otherwise appends the
text truncated to 500 characters together with its vector. -/
def archiveMessageAsVector (env : Env) (text : String)
    (store : List VectorEntry) : List VectorEntry :=
  if env.settings.ragenabled = false then store
  else
    match env.embed text with
    | none => store
    | some v => store ++ [⟨jsTake text 500, v⟩]

/-- The marking loop of `handlePruning` (part_003:235-243): every message
with index at most the prune point whose flag is not yet set is archived
(subject to the guards of `archiveMessageAsVector`) and then flagged
`excludefromcontext`.  The input is the enumerated chat; the archive store
is threaded through. -/
def markExcluded (env : Env) (p : Int) :
    List (Nat × ChatMessage) → List VectorEntry →
    List ChatMessage × List VectorEntry
  | [], store => ([], store)
  | q :: rest, store =>
    if (q.1 : Int) ≤ p ∧ q.2.excludefromcontext = false then
      let res := markExcluded env p rest (archiveMessageAsVector env q.2.mes store)
      ({ q.2 with excludefromcontext := true } :: res.1, res.2)
    else
      let res := markExcluded env p rest store
      (q.2 :: res.1, res.2)

/-- `handlePruning` (part_003:199-245).  Note that the consolidation
cursor `last_index` is read (part_003:207) but plays no part in the
computation: the prune point depends only on the budget walk. -/
def handlePruning (env : Env) (s : ChatState) : ChatState :=
  if env.settings.enabled = false ∨ env.settings.pruningenabled = false then s
  else if s.chat.isEmpty then s
  else
    let p := prunePoint env.getTokenCount (budgetOf env) s.chat
    if p > -1 then
      let res := markExcluded env p (withIndices 0 s.chat) s.vector_store
      { s with chat := res.1, vector_store := res.2 }
    else s

/-- The advisory exclusion flag of message `i` of a chat array
(false when out of range). -/
def flagAt (chat : List ChatMessage) (i : Nat) : Bool :=
  match chat.get? i with
  | some m => m.excludefromcontext
  | none => false

/-- The advisory exclusion flag of message `i` of a state's chat. -/
def excludedAt (s : ChatState) (i : Nat) : Bool :=
  flagAt s.chat i

/-- Response parsing of `runSummarization` (part_003:275-286): split the
raw result at `"KEYWORDS:"` when present (`parts[0]` and `parts[1]`,
trimmed), then strip `SUMMARY:` labels case-insensitively from the summary
part and trim it.  Returns `(summary, keywords)`. -/
def parseSummaryResult (result : String) : String × String :=
  let pair :=
    if jsIncludes "KEYWORDS:" result then
      let parts := jsSplit "KEYWORDS:" result
      (jsTrim ((parts.get? 0).getD ""), jsTrim ((parts.get? 1).getD ""))
    else
      (result, "")
  (jsTrim (stripSummaryLabel pair.1), pair.2)

/-- First-match update of the lorebook entry list (part_003:170-193):
`find` an entry whose `displayName` is the book name or whose keys contain
the sentinel `"titan_memory_unique"`; overwrite its content and keys when
found, push a new entry otherwise.  Only the modeled fields of a created
entry are shown (part_003:175-185). -/
def updateLorebookEntries (bookName summary : String) (keys : List String) :
    List LoreEntry → List LoreEntry
  | [] => [⟨bookName, keys, summary⟩]
  | e :: es =>
    if e.displayName = bookName ∨ e.key.contains "titan_memory_unique" then
      { e with content := summary, key := keys } :: es
    else
      e :: updateLorebookEntries bookName summary keys es

/-- `updateLorebook` (part_003:150-196): no-op unless lorebook sync is on
and a character is selected; parses the keyword list (defaulting to
`["titan", "memory", "summary"]` when the raw string is empty) and applies
the first-match update. -/
def updateLorebook (env : Env) (summary keywordsRaw : String)
    (lorebook : List LoreEntry) : List LoreEntry :=
  if env.settings.lorebooksync = false then lorebook
  else
    match env.charName with
    | none => lorebook
    | some charName =>
      let bookName := "Titan Memory - " ++ charName
      let keys :=
        if keywordsRaw ≠ "" then
          ((jsSplit "," keywordsRaw).map jsTrim).filter (fun k => k.length > 0)
        else ["titan", "memory", "summary"]
      updateLorebookEntries bookName summary keys lorebook

/-- The merge prompt of `runSummarization` (part_003:265-267): the
configured template with `{{EXISTING}}` and `{{NEWLINES}}` replaced. -/
def buildPrompt (env : Env) (existing newLines : String) : String :=
  jsReplaceFirst (jsReplaceFirst env.settings.prompttemplate
    "\x7b\x7bEXISTING\x7d\x7d" existing) "\x7b\x7bNEWLINES\x7d\x7d" newLines

/-- Outcome of the synchronous prefix of `runSummarization`
(part_003:249-269, everything before the `await generateRaw`). -/
inductive StartResult where
  /-- The function returned before invoking the generator (the
  `isProcessing` guard, or no new messages). -/
  | done (s : ChatState)
  /-- `generateRaw` was invoked with the given prompt; `isProcessing` is
  set in the state. -/
  | pending (s : ChatState) (prompt : String)

/-- The synchronous prefix of `runSummarization` (part_003:249-269):
the `isProcessing` check-and-set, the slice
`chat.slice(lastIndex)` of unconsolidated messages, the early return when
it is empty (clearing the flag), and otherwise the prompt assembly
(`newLines` from `"{name}: {mes}"` joined by newlines, existing memory
defaulting to `"No history yet."`). -/
def startPhase (env : Env) (s : ChatState) : StartResult :=
  if s.isProcessing then .done s
  else
    let newMessages := s.chat.drop s.last_index
    if newMessages.isEmpty then .done { s with isProcessing := false }
    else
      let newLines :=
        String.intercalate "\n" (newMessages.map (fun m => m.name ++ ": " ++ m.mes))
      let existingMemory := if s.summary = "" then "No history yet." else s.summary
      .pending { s with isProcessing := true } (buildPrompt env existingMemory newLines)

/-- The continuation of `runSummarization` once `generateRaw` settles
(part_003:271-305).  `result` is the settled outcome of the generation
call: `none` for a rejection (network error or timeout surfaced by the
backend), `some r` for a fulfilled call.  `s` is the live state at that
moment (its `chat` may have grown during the `await`).  A rejection and an
empty result both reach the `catch` (the code throws
`new Error("Empty response")` on a falsy result), which only logs; the
`finally` clears `isProcessing` and runs `handlePruning` (and
`refreshMemoryInjection`, which touches none of the modeled state).
On success the parsed summary is stored, `last_index` is set to the live
`chat.length`, `last_updated` to `Date.now()`, and the lorebook is
synced. -/
def finishPhase (env : Env) (result : Option String) (s : ChatState) : ChatState :=
  let sAfterTry :=
    match result with
    | none => s
    | some r =>
      if r = "" then s
      else
        let parsed := parseSummaryResult r
        { s with
            summary := parsed.1
            last_index := s.chat.length
            last_updated := env.now
            lorebook := updateLorebook env parsed.1 parsed.2 s.lorebook }
  handlePruning env { sAfterTry with isProcessing := false }

/-- One complete call of `runSummarization` (part_003:248-305).
`gen` is the injected generator (`generateRaw`); `arrivals` are the
messages the host appends to the live chat while the generation call is in
flight.  The second component counts the `generateRaw` invocations this
call performs (0 or 1). -/
def runSummarizationCounted (env : Env) (gen : String → Option String)
    (arrivals : List ChatMessage) (s : ChatState) : ChatState × Nat :=
  match startPhase env s with
  | .done s1 => (s1, 0)
  | .pending s1 prompt =>
    (finishPhase env (gen prompt) { s1 with chat := s1.chat ++ arrivals }, 1)

/-- `runSummarization` without the instrumentation. -/
def runSummarization (env : Env) (gen : String → Option String)
    (arrivals : List ChatMessage) (s : ChatState) : ChatState :=
  (runSummarizationCounted env gen arrivals s).1

/-- The trigger threshold actually used by `onNewMessage`
(part_003:334, `getSetting("threshold") || 2`). -/
def thresholdOf (env : Env) : Nat :=
  if env.settings.threshold = 0 then 2 else env.settings.threshold

/-- `onNewMessage` (part_003:328-344): the per-message trigger check.
When auto-summarize is on and `chat.length - lastIndex >= threshold`,
`runSummarization` runs; `handlePruning` runs in any case.  The count is
the number of `generateRaw` invocations. -/
def onNewMessageCounted (env : Env) (gen : String → Option String)
    (arrivals : List ChatMessage) (s : ChatState) : ChatState × Nat :=
  if env.settings.enabled = false then (s, 0)
  else
    let step :=
      if env.settings.autosummarize
          ∧ (s.chat.length : Int) - (s.last_index : Int) ≥ (thresholdOf env : Int) then
        runSummarizationCounted env gen arrivals s
      else (s, 0)
    (handlePruning env step.1, step.2)

/-- The wipe handler of the settings UI (part_003:408-415): resets the
summary, the consolidation cursor and the vector store.  It touches
neither the chat messages nor their exclusion flags. -/
def wipe (s : ChatState) : ChatState :=
  { s with summary := "", last_index := 0, vector_store := [] }

/-- The N `onNewMessage` events fired while a consolidation is in flight:
for each message the host appends it to the live chat and runs the trigger
check.  Counts the `generateRaw` invocations those triggers cause. -/
def triggersDuringFlight (env : Env) (gen : String → Option String) :
    List ChatMessage → ChatState → ChatState × Nat
  | [], s => (s, 0)
  | m :: rest, s =>
    let step := onNewMessageCounted env gen [] { s with chat := s.chat ++ [m] }
    let tail := triggersDuringFlight env gen rest step.1
    (tail.1, step.2 + tail.2)

/-- One consolidation run during which the host fires an `onNewMessage`
trigger for each message of `msgs`: the synchronous prefix of
`runSummarization` runs first, the triggers arrive while the generation
call is in flight, and the continuation then runs on the live state.
Counts all `generateRaw` invocations. -/
def consolidationWithConcurrentTriggers (env : Env)
    (gen : String → Option String) (msgs : List ChatMessage)
    (s : ChatState) : ChatState × Nat :=
  match startPhase env s with
  | .done s1 => (s1, 0)
  | .pending s1 prompt =>
    let during := triggersDuringFlight env gen msgs s1
    (finishPhase env (gen prompt) during.1, 1 + during.2)

/-- The operations that can touch a conversation scope's state: a host
message event (append one message, then `onNewMessage`), a manual
consolidation (`/endscene` or the `#titan-now` button), a pruning pass,
and the explicit wipe. -/
inductive TitanOp where
  | newMessage (gen : String → Option String) (arrivals : List ChatMessage)
      (m : ChatMessage)
  | consolidate (gen : String → Option String) (arrivals : List ChatMessage)
  | prune
  | wipeOp

/-- Interpretation of one operation. -/
def applyOp (env : Env) : TitanOp → ChatState → ChatState
  | .newMessage gen arrivals m, s =>
    (onNewMessageCounted env gen arrivals { s with chat := s.chat ++ [m] }).1
  | .consolidate gen arrivals, s => runSummarization env gen arrivals s
  | .prune, s => handlePruning env s
  | .wipeOp, s => wipe s

/-- Interpretation of a sequence of operations. -/
def applyOps (env : Env) : List TitanOp → ChatState → ChatState
  | [], s => s
  | op :: ops, s => applyOps env ops (applyOp env op s)

end Titan

namespace Librarian

/-!
The "Entity Splitter" merge of the Titan Memory Librarian variant
(src/index.js:688-747).
-/

/-- A lorebook entry as read and written by
`updateSpecificLorebookEntry`; only the touched fields are modeled
(src/index.js:714-722). -/
structure Entry where
  displayName : String
  keys : List String
  content : String
deriving Repr, DecidableEq

/-- `keywords.split(',').map(k => k.trim())` (src/index.js:710,717). -/
def parseKeys (keywords : String) : List String :=
  (jsSplit "," keywords).map jsTrim

/-- The find predicate of src/index.js:704:
`e.displayName.toLowerCase() === title.toLowerCase()`. -/
def matchesTitle (title : String) (e : Entry) : Bool :=
  jsToLower e.displayName = jsToLower title

/-- The merge branch of `updateSpecificLorebookEntry`
(src/index.js:706-712): append the content after a newline, and replace
the keys with the parsed keywords exactly when the raw keyword *string*
is longer than the existing key *list*
(`keywords.length > entry.keys.length`). -/
def mergeEntry (keywords content : String) (e : Entry) : Entry :=
  { e with
      content := e.content ++ "\n" ++ content
      keys := if keywords.length > e.keys.length then parseKeys keywords else e.keys }

/-- The create branch of `updateSpecificLorebookEntry`
(src/index.js:713-725), restricted to the modeled fields. -/
def mkEntry (title keywords content : String) : Entry :=
  ⟨title, parseKeys keywords, content⟩

/-- `updateSpecificLorebookEntry` (src/index.js:688-729) acting on the
entry list: update the first case-insensitive title match in place, push a
new entry at the end when there is none. -/
def updateSpecificLorebookEntry (title keywords content : String) :
    List Entry → List Entry
  | [] => [mkEntry title keywords content]
  | e :: es =>
    if matchesTitle title e then mergeEntry keywords content e :: es
    else e :: updateSpecificLorebookEntry title keywords content es

/-- `processStructuredMemory` (src/index.js:731-747) after the regex has
produced the `(title, keywords, content)` capture triples: each triple is
trimmed and applied when both the title and the content are nonempty. -/
def processStructuredMemory (triples : List (String × String × String))
    (entries : List Entry) : List Entry :=
  triples.foldl
    (fun acc t =>
      if jsTrim t.1 ≠ "" ∧ jsTrim t.2.2 ≠ "" then
        updateSpecificLorebookEntry (jsTrim t.1) (jsTrim t.2.1) (jsTrim t.2.2) acc
      else acc)
    entries

/-- Specification-side merge, written from the spec's words ("append
content (skip if already substring-contained) and union keywords"). -/
def specMergeEntry (keywords content : String) (e : Entry) : Entry :=
  { e with
      content :=
        if isSubstr content e.content then e.content
        else e.content ++ "\n" ++ content
      keys := e.keys ++ (parseKeys keywords).filter (fun k => e.keys.contains k = false) }

/-- Specification-side update, written from the spec's words: find an
existing entity by case-insensitive exact title match; merge per
`specMergeEntry` when found, create a new entity otherwise. -/
def specUpdateEntry (title keywords content : String) :
    List Entry → List Entry
  | [] => [mkEntry title keywords content]
  | e :: es =>
    if matchesTitle title e then specMergeEntry keywords content e :: es
    else e :: specUpdateEntry title keywords content es

end Librarian

namespace Rag

/-!
The vector-similarity retrieval (src/unnamed/part_003:106-147, duplicated
with an inlined similarity in src/index.js:664-685).  Scores are real
numbers (the idealization of the JavaScript floats); the query embedding
is taken as a given vector, as `getEmbedding` is an injected network call.
-/

/-- An archive entry as scored by `retrieveRAGContext`. -/
structure RagEntry where
  text : String
  vector : List Real

/-- A scored entry (`{ text: item.text, score: ... }`, part_003:136-139). -/
structure Scored where
  text : String
  score : Real

noncomputable section

open scoped Classical

/-- `cosineSimilarity` (part_003:106-115): zero when the lengths differ,
else `dot / (sqrt(magA) * sqrt(magB))` where the loop accumulates the dot
product and both squared magnitudes. -/
def cosineSimilarity (vecA vecB : List Real) : Real :=
  if vecA.length ≠ vecB.length then 0
  else
    let dot := ((vecA.zip vecB).map (fun p => p.1 * p.2)).sum
    let magA := (vecA.map (fun x => x * x)).sum
    let magB := (vecB.map (fun x => x * x)).sum
    dot / (Real.sqrt magA * Real.sqrt magB)

/-- `store.map(item => ({text: item.text, score: cosineSimilarity(vector,
item.vector)}))` (part_003:136-139). -/
def scoredEntries (store : List RagEntry) (qvec : List Real) : List Scored :=
  store.map (fun item => ⟨item.text, cosineSimilarity qvec item.vector⟩)

/-- One step of the stable descending sort modeling
`scored.sort((a, b) => b.score - a.score)` (part_003:141):
insert `x` before the first element whose score does not exceed it, so
that elements of equal score keep their original relative order, as
guaranteed for JavaScript `Array.prototype.sort`. -/
def insertByScoreDesc (x : Scored) : List Scored → List Scored
  | [] => [x]
  | y :: ys =>
    if y.score ≤ x.score then x :: y :: ys else y :: insertByScoreDesc x ys

/-- The stable descending sort of the scored entries. -/
def sortByScoreDesc : List Scored → List Scored
  | [] => []
  | x :: xs => insertByScoreDesc x (sortByScoreDesc xs)

/-- The selection of `retrieveRAGContext` (part_003:141-143):
sort descending, `slice(0, depth)`, then `filter(m => m.score > 0.7)`. -/
def retrieveMatches (store : List RagEntry) (qvec : List Real)
    (depth : Nat) : List Scored :=
  ((sortByScoreDesc (scoredEntries store qvec)).take depth).filter
    (fun m => (7 : Real) / 10 < m.score)

/-- `retrieveRAGContext`'s returned text
(part_003:146, `matches.map(m => m.text).join("\n")`). -/
def retrieveRAGContext (store : List RagEntry) (qvec : List Real)
    (depth : Nat) : String :=
  String.intercalate "\n" ((retrieveMatches store qvec depth).map (fun m => m.text))

/-- Specification-side insertion for the claimed ordering: strictly higher
score first, ties broken by the (insertion-order) index, earlier wins. -/
def lexInsert (x : Nat × Scored) : List (Nat × Scored) → List (Nat × Scored)
  | [] => [x]
  | y :: ys =>
    if y.2.score < x.2.score ∨ (x.2.score = y.2.score ∧ x.1 < y.1) then
      x :: y :: ys
    else y :: lexInsert x ys

/-- Specification-side sort on index-tagged scored entries. -/
def lexSort : List (Nat × Scored) → List (Nat × Scored)
  | [] => []
  | x :: xs => lexInsert x (lexSort xs)

/-- Specification-side retrieval, written from the spec's words: score all
entries, keep those with score at least `minScore`, order by descending
score with ties broken by insertion order (earlier wins), return the top
`k`. -/
def specRetrieve (store : List RagEntry) (qvec : List Real) (k : Nat)
    (minScore : Real) : List Scored :=
  (((lexSort (withIndices 0 (scoredEntries store qvec))).filter
      (fun p => minScore ≤ p.2.score)).take k).map (fun p => p.2)

/-- Like `specRetrieve` but with the selection rule the code implements:
score strictly greater than the fixed threshold `0.7`. -/
def specRetrieveStrict (store : List RagEntry) (qvec : List Real)
    (k : Nat) : List Scored :=
  (((lexSort (withIndices 0 (scoredEntries store qvec))).filter
      (fun p => (7 : Real) / 10 < p.2.score)).take k).map (fun p => p.2)

end

end Rag

namespace MemSum

/-!
The per-message auto-summarizer of the "memory-summarize" variant
(src/index.js:192-258, near-duplicated in src/unnamed/part_001:88-158).
-/

/-- The `extension_settings['memory-summarize']` fields read by
`triggerAutoSummarize` (src/index.js:40-70, accessed through
`get_settings`). -/
structure MsSettings where
  enabled : Bool
  autoSummarize : Bool
  messageLag : Nat
  messageThreshold : Nat
  includeSystemMessages : Bool
  includeCharacterMessages : Bool
  includeUserMessages : Bool
  summaryPrompt : String
deriving Repr, DecidableEq

/-- A chat message as read and written by the summarizer: the flags, the
text, and the per-message annotation
`msg.extensions['memory-summarize'].summary` (`none` when absent). -/
structure MsMessage where
  mes : String
  is_user : Bool
  is_system : Bool
  summary : Option String
deriving Repr, DecidableEq

/-- Truthiness of `targetMsg.extensions?.[extensionName]?.summary`
(src/index.js:212): present and nonempty. -/
def hasSummary (m : MsMessage) : Bool :=
  match m.summary with
  | some s => s ≠ ""
  | none => false

/-- `generateSummaryForMessage` (src/index.js:221-258): build the prompt
(double quotes in the content replaced by single quotes, then substituted
for `{{message}}`), invoke the generator once, and on a truthy result
store the trimmed result as the message's summary annotation.  A rejected
call is caught and leaves the chat unchanged.  The count is the number of
generator invocations (always 1 here). -/
def generateSummaryForMessage (st : MsSettings) (gen : String → Option String)
    (index : Nat) (targetMsg : MsMessage) (content : String)
    (chat : List MsMessage) : List MsMessage × Nat :=
  let safeContent := String.mk (content.toList.map
    (fun c => if c = '"' then '\x27' else c))
  let prompt := jsReplaceFirst st.summaryPrompt "\x7b\x7bmessage\x7d\x7d" safeContent
  match gen prompt with
  | none => (chat, 1)
  | some result =>
    if result = "" then (chat, 1)
    else (chat.set index { targetMsg with summary := some (jsTrim result) }, 1)

/-- `triggerAutoSummarize` (src/index.js:192-219): the guards (enabled,
auto-summarize, nonempty chat, lag-adjusted target index in range, the
role filters, the already-summarized skip, the length threshold), then one
`generateSummaryForMessage` call.  The count is the number of generator
invocations (0 or 1). -/
def triggerAutoSummarizeCounted (st : MsSettings) (gen : String → Option String)
    (chat : List MsMessage) : List MsMessage × Nat :=
  if st.enabled = false ∨ st.autoSummarize = false then (chat, 0)
  else if chat.isEmpty then (chat, 0)
  else
    let targetIndex : Int := (chat.length : Int) - 1 - (st.messageLag : Int)
    if targetIndex < 0 then (chat, 0)
    else
      match chat.get? targetIndex.toNat with
      | none => (chat, 0)
      | some targetMsg =>
        if targetMsg.is_system ∧ st.includeSystemMessages = false then (chat, 0)
        else if targetMsg.is_user = false ∧ targetMsg.is_system = false
            ∧ st.includeCharacterMessages = false then (chat, 0)
        else if targetMsg.is_user ∧ st.includeUserMessages = false then (chat, 0)
        else if hasSummary targetMsg then (chat, 0)
        else if targetMsg.mes = "" ∨ targetMsg.mes.length < st.messageThreshold then
          (chat, 0)
        else
          generateSummaryForMessage st gen targetIndex.toNat targetMsg
            targetMsg.mes chat

/-- `n` consecutive `triggerAutoSummarize` invocations on a chat that the
host does not otherwise change, with the total generator-invocation
count. -/
def repeatTrigger (st : MsSettings) (gen : String → Option String) :
    Nat → List MsMessage → List MsMessage × Nat
  | 0, chat => (chat, 0)
  | n + 1, chat =>
    let step := triggerAutoSummarizeCounted st gen chat
    let tail := repeatTrigger st gen n step.1
    (tail.1, step.2 + tail.2)

end MemSum

/-!
## Concrete instances

Inputs used by the witness and counterexample theorems.
-/

namespace Titan

/-- A host environment with pruning disabled and no optional collaborators. -/
def envW : Env :=
  ⟨⟨true, true, 2, false, 1000, false, false, "TPL"⟩, none, fun _ => none, none, 5⟩

/-- A host environment with pruning enabled, a constant host tokenizer
(2 tokens per message) and a token budget of 1. -/
def envPrune : Env :=
  ⟨⟨true, true, 2, true, 1, false, false, "TPL"⟩, some (fun _ => 2),
    fun _ => none, none, 5⟩

def msgA : ChatMessage := ⟨"Alice", "hello there", false⟩

def msgB : ChatMessage := ⟨"Bob", "general kenobi", false⟩

def msgC : ChatMessage := ⟨"Cara", "the plot thickens", false⟩

/-- Two unconsolidated messages, idle engine. -/
def stateTwo : ChatState := ⟨[msgA, msgB], "", 0, 0, [], [], false⟩

/-- Three fully consolidated messages (`last_index = 3`), idle engine. -/
def statePrune : ChatState := ⟨[msgA, msgB, msgC], "", 3, 0, [], [], false⟩

/-- A state whose first message is already excluded. -/
def stateFlagged : ChatState :=
  ⟨[⟨"Alice", "old line", true⟩, msgB], "s", 1, 0, [], [], false⟩

/-- A generator that fulfills with a fixed nonempty result. -/
def genOK : String → Option String := fun _ => some "OK"

/-- A generator that rejects every call. -/
def genFail : String → Option String := fun _ => none

/-- One operation of every kind. -/
def opsW : List TitanOp :=
  [.prune, .consolidate genOK [], .wipeOp, .newMessage genOK [] msgC]

end Titan

namespace Librarian

def aliceEntry : Entry := ⟨"Alice", ["ally"], "met the player"⟩

end Librarian

namespace Rag

noncomputable section

def ragStore : List RagEntry := [⟨"memoryA", [3, 1]⟩]

def ragQuery : List Real := [1, 3]

end

end Rag

namespace MemSum

def stMS : MsSettings := ⟨true, true, 0, 1, false, true, false, "P"⟩

/-- A character message long enough to summarize, not yet annotated. -/
def msgM : MsMessage := ⟨"hello world", false, false, none⟩

def chatMS : List MsMessage := [msgM]

/-- A character message that already carries a summary annotation. -/
def msgAnnotated : MsMessage := ⟨"hello world", false, false, some "S"⟩

def chatAnnotated : List MsMessage := [msgAnnotated]

def genNoneMS : String → Option String := fun _ => none

def genGoodMS : String → Option String := fun _ => some "A summary."

end MemSum

/-!
## Claim statements

Each `c*ClaimStatement` is the direct formalization of one frozen claim;
for the claims the code violates, the counterexample theorem below proves
its negation.
-/

namespace Titan

/-- Claim C3 as stated: on a successful consolidation commit the cursor is
advanced to the chat length captured when the run was triggered, for every
batch of messages that arrives while the generation call is in flight. -/
def c3ClaimStatement : Prop :=
  ∀ (env : Env) (gen : String → Option String) (arrivals : List ChatMessage)
    (s : ChatState) (r : String),
    s.isProcessing = false →
    s.chat.drop s.last_index ≠ [] →
    (∀ p, gen p = some r) →
    r ≠ "" →
    (runSummarization env gen arrivals s).last_index = s.chat.length

/-- Claim C4 as stated: for every state, budget and configured continuity
buffer (a positive count), pruning never newly excludes a message whose
index is at least `cursor - buffer`. -/
def c4ClaimStatement : Prop :=
  ∀ (env : Env) (s : ChatState) (buffer : Nat), 1 ≤ buffer →
    ∀ i, s.last_index - buffer ≤ i →
      excludedAt (handlePruning env s) i = excludedAt s i

/-- Claim C7 as stated: with no precise tokenizer supplied, the token
estimate is `ceil(characterLength / 4)`. -/
def c7ClaimStatement : Prop :=
  ∀ s : String,
    estimateTokens none s = ((Nat.ceil ((s.length : Rat) / 4) : Nat) : Rat)

end Titan

namespace Librarian

/-- Claim C5 as stated: the Librarian merge behaves like the
specification-side merge (append skipped when the content is already
substring-contained, keyword sets unioned, create on no match). -/
def c5ClaimStatement : Prop :=
  ∀ (title keywords content : String) (entries : List Entry),
    updateSpecificLorebookEntry title keywords content entries =
      specUpdateEntry title keywords content entries

end Librarian

namespace Rag

/-- Claim C6 as stated: for every store, query vector, `k` and minimum
score, retrieval returns exactly the top-`k` entries whose cosine score is
at least the minimum score, in descending order with ties broken by
insertion order. -/
def c6ClaimStatement : Prop :=
  ∀ (store : List RagEntry) (qvec : List Real) (k : Nat) (minScore : Real),
    retrieveMatches store qvec k = specRetrieve store qvec k minScore

end Rag

namespace MemSum

/-- Claim C10 as stated: a trigger whose target message already carries a
summary annotation performs no generation call and changes nothing, and
repeated trigger invocations on an otherwise unchanged chat perform at
most one generation call in total (the chat has a single, fixed target
index). -/
def c10ClaimStatement : Prop :=
  (∀ (st : MsSettings) (gen : String → Option String) (chat : List MsMessage)
      (i : Nat) (m : MsMessage),
      ((chat.length : Int) - 1 - (st.messageLag : Int)) = (i : Int) →
      chat.get? i = some m →
      hasSummary m = true →
      triggerAutoSummarizeCounted st gen chat = (chat, 0)) ∧
  (∀ (st : MsSettings) (gen : String → Option String) (n : Nat)
      (chat : List MsMessage),
      (repeatTrigger st gen n chat).2 ≤ 1)

end MemSum

/-!
## Helper lemmas
-/

theorem withIndices_get? {α : Type} (n : Nat) (l : List α) (k : Nat) :
    (withIndices n l).get? k = (l.get? k).map (fun a => (n + k, a)) := by
  induction l generalizing n k with
  | nil => simp [withIndices]
  | cons x xs ih =>
    cases k with
    | zero => simp [withIndices]
    | succ k =>
      simp only [withIndices, List.get?_cons_succ, ih (n + 1) k]
      cases xs.get? k <;> simp [Nat.add_assoc, Nat.add_comm 1 k]

theorem withIndices_map_snd {α : Type} (n : Nat) (l : List α) :
    (withIndices n l).map Prod.snd = l := by
  induction l generalizing n with
  | nil => rfl
  | cons x xs ih => simp [withIndices, ih]

theorem withIndices_fst_ge {α : Type} (n : Nat) (l : List α) :
    ∀ p ∈ withIndices n l, n ≤ p.1 := by
  induction l generalizing n with
  | nil => intro p hp; simp [withIndices] at hp
  | cons x xs ih =>
    intro p hp
    simp only [withIndices, List.mem_cons] at hp
    rcases hp with h | h
    · simp [h]
    · exact Nat.le_of_succ_le (ih (n + 1) p h)

theorem withIndices_pairwise_fst {α : Type} (n : Nat) (l : List α) :
    (withIndices n l).Pairwise (fun p q => p.1 < q.1) := by
  induction l generalizing n with
  | nil => exact List.Pairwise.nil
  | cons x xs ih =>
    refine List.Pairwise.cons ?_ (ih (n + 1))
    intro q hq
    exact Nat.lt_of_lt_of_le (Nat.lt_succ_self n) (withIndices_fst_ge (n + 1) xs q hq)

namespace Titan

theorem archiveMessageAsVector_append (env : Env) (text : String)
    (store : List VectorEntry) :
    ∃ tl, archiveMessageAsVector env text store = store ++ tl := by
  unfold archiveMessageAsVector
  split
  · exact ⟨[], by simp⟩
  · split
    · exact ⟨[], by simp⟩
    · exact ⟨_, rfl⟩

theorem markExcluded_fst (env : Env) (p : Int) (l : List (Nat × ChatMessage)) :
    ∀ store, (markExcluded env p l store).1 =
      l.map (fun q =>
        if (q.1 : Int) ≤ p ∧ q.2.excludefromcontext = false then
          { q.2 with excludefromcontext := true }
        else q.2) := by
  induction l with
  | nil => intro store; rfl
  | cons q rest ih =>
    intro store
    by_cases h : (q.1 : Int) ≤ p ∧ q.2.excludefromcontext = false
    · simp [markExcluded, h, ih]
    · simp [markExcluded, h, ih]

theorem markExcluded_snd_append (env : Env) (p : Int)
    (l : List (Nat × ChatMessage)) :
    ∀ store, ∃ tl, (markExcluded env p l store).2 = store ++ tl := by
  induction l with
  | nil => intro store; exact ⟨[], by simp [markExcluded]⟩
  | cons q rest ih =>
    intro store
    by_cases h : (q.1 : Int) ≤ p ∧ q.2.excludefromcontext = false
    · obtain ⟨t1, ht1⟩ := archiveMessageAsVector_append env q.2.mes store
      obtain ⟨t2, ht2⟩ := ih (archiveMessageAsVector env q.2.mes store)
      rw [ht1] at ht2
      refine ⟨t1 ++ t2, ?_⟩
      simp [markExcluded, h, ht1, ht2]
    · obtain ⟨t2, ht2⟩ := ih store
      refine ⟨t2, ?_⟩
      simp [markExcluded, h, ht2]

theorem handlePruning_summary (env : Env) (s : ChatState) :
    (handlePruning env s).summary = s.summary := by
  simp only [handlePruning]
  split
  · rfl
  · split
    · rfl
    · split <;> rfl

theorem handlePruning_last_index (env : Env) (s : ChatState) :
    (handlePruning env s).last_index = s.last_index := by
  simp only [handlePruning]
  split
  · rfl
  · split
    · rfl
    · split <;> rfl

theorem handlePruning_last_updated (env : Env) (s : ChatState) :
    (handlePruning env s).last_updated = s.last_updated := by
  simp only [handlePruning]
  split
  · rfl
  · split
    · rfl
    · split <;> rfl

theorem handlePruning_lorebook (env : Env) (s : ChatState) :
    (handlePruning env s).lorebook = s.lorebook := by
  simp only [handlePruning]
  split
  · rfl
  · split
    · rfl
    · split <;> rfl

theorem handlePruning_isProcessing (env : Env) (s : ChatState) :
    (handlePruning env s).isProcessing = s.isProcessing := by
  simp only [handlePruning]
  split
  · rfl
  · split
    · rfl
    · split <;> rfl

theorem flagAt_lt_length (chat : List ChatMessage) (i : Nat)
    (h : flagAt chat i = true) : i < chat.length := by
  by_contra hge
  have : chat.get? i = none := List.get?_eq_none.mpr (Nat.le_of_not_lt hge)
  unfold flagAt at h
  rw [this] at h
  exact Bool.noConfusion h

theorem flagAt_append_mono (chat extra : List ChatMessage) (i : Nat)
    (h : flagAt chat i = true) : flagAt (chat ++ extra) i = true := by
  have hlt := flagAt_lt_length chat i h
  unfold flagAt at h ⊢
  rw [List.get?_append hlt]
  exact h

/-- The chat produced by the marking loop: each message is its original,
with the flag set exactly on the not-yet-flagged messages at or before the
prune point. -/
theorem markExcluded_chat_eq (env : Env) (p : Int) (chat : List ChatMessage)
    (store : List VectorEntry) :
    (markExcluded env p (withIndices 0 chat) store).1 =
      (withIndices 0 chat).map (fun q =>
        if (q.1 : Int) ≤ p ∧ q.2.excludefromcontext = false then
          { q.2 with excludefromcontext := true }
        else q.2) :=
  markExcluded_fst env p (withIndices 0 chat) store

theorem flagAt_markExcluded (env : Env) (p : Int) (chat : List ChatMessage)
    (store : List VectorEntry) (i : Nat) (m : ChatMessage)
    (hg : chat.get? i = some m) :
    flagAt (markExcluded env p (withIndices 0 chat) store).1 i =
      (if (i : Int) ≤ p ∧ m.excludefromcontext = false then true
       else m.excludefromcontext) := by
  unfold flagAt
  rw [markExcluded_chat_eq, List.get?_map, withIndices_get? 0 chat i, hg]
  simp only [Option.map_some', Nat.zero_add]
  split
  · rfl
  · rfl

theorem excludedAt_handlePruning_mono (env : Env) (s : ChatState) (i : Nat)
    (h : excludedAt s i = true) : excludedAt (handlePruning env s) i = true := by
  unfold excludedAt at h ⊢
  simp only [handlePruning]
  split
  · exact h
  · split
    · exact h
    · split
      · have hlt := flagAt_lt_length s.chat i h
        obtain ⟨m, hg⟩ : ∃ m, s.chat.get? i = some m := by
          rw [List.get?_eq_get hlt]
          exact ⟨_, rfl⟩
        show flagAt (markExcluded env _ (withIndices 0 s.chat) s.vector_store).1 i = true
        rw [flagAt_markExcluded env _ s.chat s.vector_store i m hg]
        unfold flagAt at h
        rw [hg] at h
        split
        · rfl
        · exact h
      · exact h

theorem startPhase_done_chat (env : Env) (s s1 : ChatState)
    (h : startPhase env s = .done s1) : s1.chat = s.chat := by
  simp only [startPhase] at h
  split at h
  · cases h; rfl
  · split at h
    · cases h; rfl
    · cases h

theorem startPhase_pending_chat (env : Env) (s s1 : ChatState) (pr : String)
    (h : startPhase env s = .pending s1 pr) :
    s1.chat = s.chat ∧ s1.summary = s.summary ∧ s1.last_index = s.last_index ∧
      s1.last_updated = s.last_updated ∧ s1.lorebook = s.lorebook ∧
      s1.vector_store = s.vector_store ∧ s1.isProcessing = true := by
  simp only [startPhase] at h
  split at h
  · cases h
  · split at h
    · cases h
    · cases h
      exact ⟨rfl, rfl, rfl, rfl, rfl, rfl, rfl⟩

theorem startPhase_of_idle_pending (env : Env) (s : ChatState)
    (h1 : s.isProcessing = false) (h2 : s.chat.drop s.last_index ≠ []) :
    startPhase env s = .pending { s with isProcessing := true }
      (buildPrompt env (if s.summary = "" then "No history yet." else s.summary)
        (String.intercalate "\n" ((s.chat.drop s.last_index).map
          (fun m => m.name ++ ": " ++ m.mes)))) := by
  have hne : (s.chat.drop s.last_index).isEmpty = false := by
    cases hd : s.chat.drop s.last_index with
    | nil => exact absurd hd h2
    | cons a l => rfl
  simp [startPhase, h1, hne]

theorem finishPhase_frame_of_failure (env : Env) (result : Option String)
    (s : ChatState) (hr : result = none ∨ result = some "") :
    (finishPhase env result s).summary = s.summary ∧
      (finishPhase env result s).last_index = s.last_index ∧
      (finishPhase env result s).last_updated = s.last_updated ∧
      (finishPhase env result s).lorebook = s.lorebook ∧
      (finishPhase env result s).isProcessing = false := by
  have hAfter :
      finishPhase env result s = handlePruning env { s with isProcessing := false } := by
    rcases hr with h | h <;> simp [finishPhase, h]
  rw [hAfter]
  refine ⟨handlePruning_summary _ _, handlePruning_last_index _ _,
    handlePruning_last_updated _ _, handlePruning_lorebook _ _, ?_⟩
  rw [handlePruning_isProcessing]

theorem finishPhase_flag_mono (env : Env) (result : Option String)
    (s : ChatState) (i : Nat) (h : flagAt s.chat i = true) :
    excludedAt (finishPhase env result s) i = true := by
  unfold finishPhase
  rcases result with _ | r
  · exact excludedAt_handlePruning_mono env _ i h
  · by_cases hr : r = ""
    · simp only [hr, if_pos rfl]
      exact excludedAt_handlePruning_mono env _ i h
    · simp only [if_neg hr]
      exact excludedAt_handlePruning_mono env _ i h

theorem runSummarization_flag_mono (env : Env) (gen : String → Option String)
    (arrivals : List ChatMessage) (s : ChatState) (i : Nat)
    (h : excludedAt s i = true) :
    excludedAt (runSummarization env gen arrivals s) i = true := by
  unfold runSummarization runSummarizationCounted
  cases hs : startPhase env s with
  | done s1 =>
    show excludedAt s1 i = true
    unfold excludedAt at h ⊢
    rw [startPhase_done_chat env s s1 hs]
    exact h
  | pending s1 pr =>
    show excludedAt (finishPhase env (gen pr) { s1 with chat := s1.chat ++ arrivals }) i = true
    apply finishPhase_flag_mono
    show flagAt (s1.chat ++ arrivals) i = true
    apply flagAt_append_mono
    rw [(startPhase_pending_chat env s s1 pr hs).1]
    exact h

theorem onNewMessage_flag_mono (env : Env) (gen : String → Option String)
    (arrivals : List ChatMessage) (s : ChatState) (i : Nat)
    (h : excludedAt s i = true) :
    excludedAt (onNewMessageCounted env gen arrivals s).1 i = true := by
  unfold onNewMessageCounted
  split
  · exact h
  · apply excludedAt_handlePruning_mono
    split
    · exact runSummarization_flag_mono env gen arrivals s i h
    · exact h

theorem applyOp_flag_mono (env : Env) (op : TitanOp) (s : ChatState) (i : Nat)
    (h : excludedAt s i = true) : excludedAt (applyOp env op s) i = true := by
  cases op with
  | newMessage gen arrivals m =>
    apply onNewMessage_flag_mono
    exact flagAt_append_mono s.chat [m] i h
  | consolidate gen arrivals => exact runSummarization_flag_mono env gen arrivals s i h
  | prune => exact excludedAt_handlePruning_mono env s i h
  | wipeOp => exact h

/-- Full characterization of the exclusion flags after one pruning pass
(for enabled pruning and an in-range index): a message ends up excluded
exactly when it already was, or its index is at most the budget-walk
prune point.  The consolidation cursor plays no part. -/
theorem excludedAt_handlePruning_eq (env : Env) (s : ChatState) (i : Nat)
    (h1 : env.settings.enabled = true) (h2 : env.settings.pruningenabled = true)
    (hi : i < s.chat.length) :
    excludedAt (handlePruning env s) i =
      (excludedAt s i ||
        decide ((i : Int) ≤ prunePoint env.getTokenCount (budgetOf env) s.chat)) := by
  have hne : s.chat.isEmpty = false := by
    cases hc : s.chat with
    | nil => rw [hc] at hi; exact absurd hi (by simp)
    | cons a l => rfl
  obtain ⟨m, hg⟩ : ∃ m, s.chat.get? i = some m := by
    rw [List.get?_eq_get hi]
    exact ⟨_, rfl⟩
  unfold excludedAt
  simp only [handlePruning, h1, h2, hne]
  by_cases hp : prunePoint env.getTokenCount (budgetOf env) s.chat > -1
  · simp only [if_pos hp]
    show flagAt (markExcluded env _ (withIndices 0 s.chat) s.vector_store).1 i = _
    rw [flagAt_markExcluded env _ s.chat s.vector_store i m hg]
    have hm : flagAt s.chat i = m.excludefromcontext := by
      unfold flagAt
      rw [hg]
    rw [hm]
    by_cases hip : (i : Int) ≤ prunePoint env.getTokenCount (budgetOf env) s.chat
    · cases hf : m.excludefromcontext <;> simp [hip, hf]
    · cases hf : m.excludefromcontext <;> simp [hip, hf]
  · simp only [if_neg hp]
    have hnl : ¬ ((i : Int) ≤ prunePoint env.getTokenCount (budgetOf env) s.chat) := by
      intro hle
      exact hp (lt_of_lt_of_le (by norm_num : (-1 : Int) < 0)
        (le_trans (Int.natCast_nonneg i) hle))
    simp [hnl]

/-- C9: once a message's `excludefromcontext` flag is set, no operation of
the system — pruning, consolidation, the host message events, or the
explicit wipe — ever resets it: the excluded set is monotonically
non-decreasing along every operation sequence. -/
theorem c9_excluded_flags_monotone (env : Env) (ops : List TitanOp)
    (s : ChatState) (i : Nat) (h : excludedAt s i = true) :
    excludedAt (applyOps env ops s) i = true := by
  induction ops generalizing s with
  | nil => exact h
  | cons op ops ih => exact ih (applyOp env op s) (applyOp_flag_mono env op s i h)

/-- Witness for C9 at a concrete state and one operation of every kind. -/
theorem c9_witness :
    excludedAt stateFlagged 0 = true ∧
      excludedAt (applyOps envPrune opsW stateFlagged) 0 = true :=
  ⟨rfl, c9_excluded_flags_monotone envPrune opsW stateFlagged 0 rfl⟩

/-- C4 (amended): the exclusion boundary of `handlePruning` is the budget
cutoff index alone — a message becomes excluded exactly when it already
was or its index is at most the prune point; the cursor and any continuity
buffer play no part. -/
theorem c4_exclusion_boundary_is_budget_cutoff (env : Env) (s : ChatState)
    (i : Nat) (h1 : env.settings.enabled = true)
    (h2 : env.settings.pruningenabled = true) (hi : i < s.chat.length) :
    excludedAt (handlePruning env s) i =
      (excludedAt s i ||
        decide ((i : Int) ≤ prunePoint env.getTokenCount (budgetOf env) s.chat)) :=
  excludedAt_handlePruning_eq env s i h1 h2 hi

/-- Witness for the amended C4 at a concrete environment and state. -/
theorem c4_witness :
    envPrune.settings.enabled = true ∧ envPrune.settings.pruningenabled = true ∧
      0 < statePrune.chat.length ∧
      excludedAt (handlePruning envPrune statePrune) 0 =
        (excludedAt statePrune 0 ||
          decide ((0 : Int) ≤
            prunePoint envPrune.getTokenCount (budgetOf envPrune) statePrune.chat)) :=
  ⟨rfl, rfl, by decide,
    c4_exclusion_boundary_is_budget_cutoff envPrune statePrune 0 rfl rfl (by decide)⟩

/-- The prune point of the concrete pruning scenario: the budget of 1 is
exceeded at the most recent message already. -/
theorem prunePoint_statePrune :
    prunePoint envPrune.getTokenCount (budgetOf envPrune) statePrune.chat = 2 := by
  norm_num [prunePoint, prunePointAux, withIndices, estimateTokens, budgetOf,
    envPrune, statePrune, msgA, msgB, msgC]

/-- Counterexample to C4 as stated: with a budget of 1 the pruning pass
excludes message 2 of a 3-message fully consolidated chat
(`cursor = 3`), although `2 ≥ cursor - buffer` for the buffer 1 — there is
no continuity buffer in the code. -/
theorem c4_counterexample : ¬ c4ClaimStatement := by
  intro h
  have hinst := h envPrune statePrune 1 (le_refl 1) 2 (by decide)
  have hL : excludedAt (handlePruning envPrune statePrune) 2 = true := by
    rw [excludedAt_handlePruning_eq envPrune statePrune 2 rfl rfl (by decide),
      prunePoint_statePrune]
    decide
  rw [hL] at hinst
  have hR : excludedAt statePrune 2 = false := rfl
  rw [hR] at hinst
  exact Bool.noConfusion hinst

/-- Counterexample to C7 as stated: on a 4-character string the default
estimate is `4 / 3.5 = 8/7`, not `ceil(4/4) = 1`. -/
theorem c7_counterexample : ¬ c7ClaimStatement := by
  intro h
  have h4 := h "abcd"
  have hlen : ("abcd" : String).length = 4 := rfl
  simp only [estimateTokens, hlen] at h4
  rw [show (((4 : Nat) : Rat) / 4) = 1 by norm_num, Nat.ceil_one] at h4
  norm_num at h4

/-- C7 (amended): with no precise tokenizer the estimate is
`characterLength / 3.5` (a fractional value, no ceiling); it is monotonic
in string length and, being a pure function of the string, deterministic. -/
theorem c7_estimator_linear_monotone (s t : String) :
    estimateTokens none s = (s.length : Rat) / (7 / 2) ∧
      (s.length ≤ t.length → estimateTokens none s ≤ estimateTokens none t) := by
  refine ⟨rfl, fun h => ?_⟩
  show (s.length : Rat) / (7 / 2) ≤ (t.length : Rat) / (7 / 2)
  rw [div_le_div_right (by norm_num : (0 : Rat) < 7 / 2)]
  exact_mod_cast h

/-- Witness for the amended C7 on concrete strings. -/
theorem c7_witness :
    ("ab" : String).length ≤ ("abcd" : String).length ∧
      estimateTokens none "ab" = (("ab" : String).length : Rat) / (7 / 2) ∧
      estimateTokens none "ab" ≤ estimateTokens none "abcd" :=
  ⟨by decide, (c7_estimator_linear_monotone "ab" "abcd").1,
    (c7_estimator_linear_monotone "ab" "abcd").2 (by decide)⟩

/-- The marking loop relates every original message to its output message:
identical, or identical except for the flag being set. -/
theorem forall₂_mark (p : Int) (n : Nat) (l : List ChatMessage) :
    List.Forall₂
      (fun m m2 => m2 = m ∨ m2 = { m with excludefromcontext := true }) l
      ((withIndices n l).map (fun q =>
        if (q.1 : Int) ≤ p ∧ q.2.excludefromcontext = false then
          { q.2 with excludefromcontext := true }
        else q.2)) := by
  induction l generalizing n with
  | nil => exact List.Forall₂.nil
  | cons x xs ih =>
    refine List.Forall₂.cons ?_ (ih (n + 1))
    by_cases hc : (n : Int) ≤ p ∧ x.excludefromcontext = false
    · refine Or.inr ?_
      simp only [if_pos hc]
    · refine Or.inl ?_
      simp only [if_neg hc]

/-- C8: a pruning pass never touches a message's text (or speaker name):
every message of the output chat is the corresponding input message,
possibly with the advisory `excludefromcontext` flag set; all other state
fields are preserved, and the vector store only grows by the one-time
archive appends. -/
theorem c8_pruning_preserves_message_text (env : Env) (s : ChatState) :
    List.Forall₂
      (fun m m2 => m2 = m ∨ m2 = { m with excludefromcontext := true })
      s.chat (handlePruning env s).chat ∧
    (handlePruning env s).summary = s.summary ∧
    (handlePruning env s).last_index = s.last_index ∧
    (handlePruning env s).last_updated = s.last_updated ∧
    (handlePruning env s).lorebook = s.lorebook ∧
    (handlePruning env s).isProcessing = s.isProcessing ∧
    ∃ appended, (handlePruning env s).vector_store = s.vector_store ++ appended := by
  refine ⟨?_, handlePruning_summary env s, handlePruning_last_index env s,
    handlePruning_last_updated env s, handlePruning_lorebook env s,
    handlePruning_isProcessing env s, ?_⟩
  · have hrefl : List.Forall₂
        (fun m m2 => m2 = m ∨ m2 = { m with excludefromcontext := true })
        s.chat s.chat :=
      List.forall₂_same.mpr (fun x _ => Or.inl rfl)
    simp only [handlePruning]
    split
    · exact hrefl
    · split
      · exact hrefl
      · split
        · show List.Forall₂ _ s.chat (markExcluded env _ (withIndices 0 s.chat) s.vector_store).1
          rw [markExcluded_fst]
          exact forall₂_mark _ 0 s.chat
        · exact hrefl
  · simp only [handlePruning]
    split
    · exact ⟨[], by simp⟩
    · split
      · exact ⟨[], by simp⟩
      · split
        · exact markExcluded_snd_append env _ (withIndices 0 s.chat) s.vector_store
        · exact ⟨[], by simp⟩

/-- C1: a consolidation run whose generation call rejects (covering
network errors and timeouts surfaced by the backend) or fulfills with an
empty result commits nothing: the rolling summary, the entity records
(lorebook), the cursor `last_index` and the `last_updated` metadata are
unchanged, the engine returns to idle (`isProcessing = false`), and
exactly one generation call was made. -/
theorem c1_failed_run_commits_nothing (env : Env) (gen : String → Option String)
    (arrivals : List ChatMessage) (s : ChatState)
    (h1 : s.isProcessing = false) (h2 : s.chat.drop s.last_index ≠ [])
    (hg : ∀ p, gen p = none ∨ gen p = some "") :
    (runSummarization env gen arrivals s).summary = s.summary ∧
    (runSummarization env gen arrivals s).lorebook = s.lorebook ∧
    (runSummarization env gen arrivals s).last_index = s.last_index ∧
    (runSummarization env gen arrivals s).last_updated = s.last_updated ∧
    (runSummarization env gen arrivals s).isProcessing = false ∧
    (runSummarizationCounted env gen arrivals s).2 = 1 := by
  unfold runSummarization runSummarizationCounted
  rw [startPhase_of_idle_pending env s h1 h2]
  dsimp only
  obtain ⟨hf1, hf2, hf3, hf4, hf5⟩ :=
    finishPhase_frame_of_failure env (gen _)
      { { s with isProcessing := true } with
          chat := ({ s with isProcessing := true } : ChatState).chat ++ arrivals }
      (hg _)
  exact ⟨hf1, hf4, hf2, hf3, hf5, rfl⟩

/-- Witness for C1: a rejecting generator on a concrete idle state. -/
theorem c1_witness :
    stateTwo.isProcessing = false ∧
      stateTwo.chat.drop stateTwo.last_index ≠ [] ∧
      (runSummarization envW genFail [] stateTwo).summary = stateTwo.summary ∧
      (runSummarization envW genFail [] stateTwo).last_index = stateTwo.last_index ∧
      (runSummarization envW genFail [] stateTwo).isProcessing = false :=
  ⟨rfl, by decide,
    (c1_failed_run_commits_nothing envW genFail [] stateTwo rfl (by decide)
      (fun p => Or.inl rfl)).1,
    (c1_failed_run_commits_nothing envW genFail [] stateTwo rfl (by decide)
      (fun p => Or.inl rfl)).2.2.1,
    (c1_failed_run_commits_nothing envW genFail [] stateTwo rfl (by decide)
      (fun p => Or.inl rfl)).2.2.2.2.1⟩

theorem finishPhase_isProcessing (env : Env) (result : Option String)
    (s : ChatState) : (finishPhase env result s).isProcessing = false := by
  unfold finishPhase
  rcases result with _ | r
  · rw [handlePruning_isProcessing]
  · by_cases hr : r = "" <;> simp only [hr, if_pos, if_neg, if_true, if_false] <;>
      rw [handlePruning_isProcessing]

theorem runCounted_of_processing (env : Env) (gen : String → Option String)
    (arrivals : List ChatMessage) (s : ChatState) (h : s.isProcessing = true) :
    runSummarizationCounted env gen arrivals s = (s, 0) := by
  unfold runSummarizationCounted
  rw [show startPhase env s = .done s from by simp [startPhase, h]]

theorem onNewMessage_of_processing (env : Env) (gen : String → Option String)
    (arrivals : List ChatMessage) (s : ChatState) (h : s.isProcessing = true) :
    (onNewMessageCounted env gen arrivals s).2 = 0 ∧
      (onNewMessageCounted env gen arrivals s).1.isProcessing = true ∧
      (onNewMessageCounted env gen arrivals s).1.summary = s.summary ∧
      (onNewMessageCounted env gen arrivals s).1.last_index = s.last_index := by
  unfold onNewMessageCounted
  split
  · exact ⟨rfl, h, rfl, rfl⟩
  · split
    · rw [runCounted_of_processing env gen arrivals s h]
      refine ⟨rfl, ?_, handlePruning_summary env s, handlePruning_last_index env s⟩
      rw [handlePruning_isProcessing]
      exact h
    · refine ⟨rfl, ?_, handlePruning_summary env s, handlePruning_last_index env s⟩
      rw [handlePruning_isProcessing]
      exact h

theorem triggersDuringFlight_of_processing (env : Env)
    (gen : String → Option String) (msgs : List ChatMessage) :
    ∀ s : ChatState, s.isProcessing = true →
      (triggersDuringFlight env gen msgs s).2 = 0 ∧
        (triggersDuringFlight env gen msgs s).1.isProcessing = true := by
  induction msgs with
  | nil => exact fun s h => ⟨rfl, h⟩
  | cons m rest ih =>
    intro s h
    have hmid : ({ s with chat := s.chat ++ [m] } : ChatState).isProcessing = true := h
    obtain ⟨hc, hp, _, _⟩ :=
      onNewMessage_of_processing env gen [] { s with chat := s.chat ++ [m] } hmid
    obtain ⟨tc, tp⟩ :=
      ih (onNewMessageCounted env gen [] { s with chat := s.chat ++ [m] }).1 hp
    unfold triggersDuringFlight
    constructor
    · dsimp only
      rw [hc, tc]
    · exact tp

/-- C2: (i) a trigger arriving while the `isProcessing` flag is set causes
no generation call, is dropped rather than queued (no cursor or summary
change), and leaves the flag set — the flag is cleared only by the
in-flight run's own terminal transition; (ii) a consolidation run during
which any number of triggers fire performs exactly one generation call and
ends idle. -/
theorem c2_at_most_one_generation_in_flight :
    (∀ (env : Env) (gen : String → Option String) (arrivals : List ChatMessage)
        (s : ChatState), s.isProcessing = true →
        (onNewMessageCounted env gen arrivals s).2 = 0 ∧
        (onNewMessageCounted env gen arrivals s).1.isProcessing = true ∧
        (onNewMessageCounted env gen arrivals s).1.summary = s.summary ∧
        (onNewMessageCounted env gen arrivals s).1.last_index = s.last_index) ∧
    (∀ (env : Env) (gen : String → Option String) (msgs : List ChatMessage)
        (s : ChatState), s.isProcessing = false →
        s.chat.drop s.last_index ≠ [] →
        (consolidationWithConcurrentTriggers env gen msgs s).2 = 1 ∧
        (consolidationWithConcurrentTriggers env gen msgs s).1.isProcessing = false) := by
  constructor
  · exact onNewMessage_of_processing
  · intro env gen msgs s h1 h2
    unfold consolidationWithConcurrentTriggers
    rw [startPhase_of_idle_pending env s h1 h2]
    dsimp only
    obtain ⟨tc, tp⟩ :=
      triggersDuringFlight_of_processing env gen msgs { s with isProcessing := true } rfl
    rw [tc]
    exact ⟨rfl, finishPhase_isProcessing env _ _⟩

/-- Witness for C2: one concurrent trigger during a concrete run. -/
theorem c2_witness :
    stateTwo.isProcessing = false ∧
      stateTwo.chat.drop stateTwo.last_index ≠ [] ∧
      (consolidationWithConcurrentTriggers envW genOK [msgC] stateTwo).2 = 1 ∧
      (consolidationWithConcurrentTriggers envW genOK [msgC] stateTwo).1.isProcessing
        = false :=
  ⟨rfl, by decide,
    (c2_at_most_one_generation_in_flight.2 envW genOK [msgC] stateTwo rfl (by decide)).1,
    (c2_at_most_one_generation_in_flight.2 envW genOK [msgC] stateTwo rfl (by decide)).2⟩

/-- Counterexample to C3 as stated: with a two-message chat at trigger
time and one message arriving during the generation call, the committed
cursor is 3 (the live `chat.length` at commit time), not the trigger-time
length 2. -/
theorem c3_counterexample : ¬ c3ClaimStatement := by
  intro h
  have h2 := h envW genOK [msgC] stateTwo "OK" rfl (by decide) (fun p => rfl) (by decide)
  have hL : (runSummarization envW genOK [msgC] stateTwo).last_index = 3 := by decide
  rw [hL] at h2
  have hR : stateTwo.chat.length = 2 := rfl
  rw [hR] at h2
  exact absurd h2 (by decide)

/-- C3 (amended): on a successful commit the cursor is advanced to the
live chat length at commit time — the trigger-time length plus the number
of messages that arrived during the generation call — so mid-flight
messages are counted as consolidated even though they were not part of the
summarized slice. -/
theorem c3_cursor_advances_to_commit_time_length (env : Env)
    (gen : String → Option String) (arrivals : List ChatMessage)
    (s : ChatState) (r : String) (h1 : s.isProcessing = false)
    (h2 : s.chat.drop s.last_index ≠ []) (hg : ∀ p, gen p = some r)
    (hr : r ≠ "") :
    (runSummarization env gen arrivals s).last_index =
      s.chat.length + arrivals.length := by
  unfold runSummarization runSummarizationCounted
  rw [startPhase_of_idle_pending env s h1 h2]
  dsimp only
  unfold finishPhase
  rw [hg]
  dsimp only
  rw [if_neg hr]
  rw [handlePruning_last_index]
  exact List.length_append _ _

/-- Witness for the amended C3 on a concrete run with one mid-flight
arrival. -/
theorem c3_witness :
    stateTwo.isProcessing = false ∧
      stateTwo.chat.drop stateTwo.last_index ≠ [] ∧ ("OK" : String) ≠ "" ∧
      (runSummarization envW genOK [msgC] stateTwo).last_index =
        stateTwo.chat.length + [msgC].length :=
  ⟨rfl, by decide, by decide,
    c3_cursor_advances_to_commit_time_length envW genOK [msgC] stateTwo "OK" rfl
      (by decide) (fun p => rfl) (by decide)⟩

end Titan

namespace Librarian

theorem updateEntry_no_match (title keywords content : String) :
    ∀ pre : List Entry, (∀ p ∈ pre, matchesTitle title p = false) →
      updateSpecificLorebookEntry title keywords content pre =
        pre ++ [mkEntry title keywords content] := by
  intro pre
  induction pre with
  | nil => intro _; rfl
  | cons e es ih =>
    intro h
    have he : matchesTitle title e = false := h e (List.mem_cons_self e es)
    simp only [updateSpecificLorebookEntry, he, Bool.false_eq_true, if_false]
    rw [ih (fun p hp => h p (List.mem_cons_of_mem e hp))]
    rfl

theorem updateEntry_found (title keywords content : String) :
    ∀ (pre : List Entry) (e : Entry) (post : List Entry),
      (∀ p ∈ pre, matchesTitle title p = false) → matchesTitle title e = true →
      updateSpecificLorebookEntry title keywords content (pre ++ e :: post) =
        pre ++ mergeEntry keywords content e :: post := by
  intro pre
  induction pre with
  | nil =>
    intro e post _ he
    simp only [List.nil_append, updateSpecificLorebookEntry, he, if_true]
  | cons q qs ih =>
    intro e post h he
    have hq : matchesTitle title q = false := h q (List.mem_cons_self q qs)
    simp only [List.cons_append, updateSpecificLorebookEntry, hq,
      Bool.false_eq_true, if_false, List.append_eq]
    rw [ih e post (fun p hp => h p (List.mem_cons_of_mem q hp)) he]

/-- Counterexample to C5 as stated: merging the triple
`("alice", "ally", "met the player")` into an entry whose content is
already exactly `"met the player"` duplicates the content (and the keys
are replaced by the string-length rule, not unioned), so the code differs
from the specification-side merge. -/
theorem c5_counterexample : ¬ c5ClaimStatement := by
  intro h
  exact absurd (h "alice" "ally" "met the player" [aliceEntry]) (by decide)

/-- C5 (amended): on a case-insensitive exact title match the first
matching entry's content is appended unconditionally (a newline plus the
new content, with no duplicate check), and its keys are replaced by the
parsed new keywords exactly when the raw keyword string is longer than the
number of existing keys (no union); when no entry matches, a new entry is
appended at the end. -/
theorem c5_merge_appends_unconditionally (title keywords content : String)
    (pre post : List Entry) (e : Entry) :
    ((∀ p ∈ pre, matchesTitle title p = false) → matchesTitle title e = true →
      updateSpecificLorebookEntry title keywords content (pre ++ e :: post) =
        pre ++ mergeEntry keywords content e :: post) ∧
    ((∀ p ∈ pre, matchesTitle title p = false) →
      updateSpecificLorebookEntry title keywords content pre =
        pre ++ [mkEntry title keywords content]) ∧
    (mergeEntry keywords content e).content = e.content ++ "\n" ++ content ∧
    (mergeEntry keywords content e).keys =
      (if keywords.length > e.keys.length then parseKeys keywords else e.keys) :=
  ⟨fun h he => updateEntry_found title keywords content pre e post h he,
    fun h => updateEntry_no_match title keywords content pre h, rfl, rfl⟩

/-- Witness for the amended C5: a non-matching prefix, a matching entry,
and the no-match case, all concrete. -/
theorem c5_witness :
    (∀ p ∈ [⟨"Bob", ["b"], "bb"⟩].map (id (α := Entry)),
        matchesTitle "alice" p = false) ∧
      matchesTitle "alice" aliceEntry = true ∧
      updateSpecificLorebookEntry "alice" "ally, friend" "joined the party"
          ([⟨"Bob", ["b"], "bb"⟩] ++ aliceEntry :: []) =
        [⟨"Bob", ["b"], "bb"⟩] ++
          mergeEntry "ally, friend" "joined the party" aliceEntry :: [] ∧
      updateSpecificLorebookEntry "carol" "k" "c" [⟨"Bob", ["b"], "bb"⟩] =
        [⟨"Bob", ["b"], "bb"⟩] ++ [mkEntry "carol" "k" "c"] :=
  ⟨by decide, by decide,
    (c5_merge_appends_unconditionally "alice" "ally, friend" "joined the party"
        [⟨"Bob", ["b"], "bb"⟩] [] aliceEntry).1 (by decide) (by decide),
    (c5_merge_appends_unconditionally "carol" "k" "c"
        [⟨"Bob", ["b"], "bb"⟩] [] aliceEntry).2.1 (by decide)⟩

end Librarian

namespace MemSum

theorem jsTrim_ne_empty (r : String) (h : jsTrim r ≠ "") : r ≠ "" := by
  intro he
  rw [he] at h
  exact h rfl

/-- A trigger whose target already carries a (truthy) summary annotation
returns without a generation call and without touching the chat. -/
theorem trigger_skip_of_annotated (st : MsSettings) (gen : String → Option String)
    (chat : List MsMessage) (i : Nat) (m : MsMessage)
    (hidx : ((chat.length : Int) - 1 - (st.messageLag : Int)) = (i : Int))
    (hget : chat.get? i = some m) (hsum : hasSummary m = true) :
    triggerAutoSummarizeCounted st gen chat = (chat, 0) := by
  unfold triggerAutoSummarizeCounted
  split
  · rfl
  · split
    · rfl
    · rw [hidx]
      have hnn : ¬ (((i : Nat) : Int) < 0) := not_lt.mpr (Int.natCast_nonneg i)
      rw [if_neg hnn]
      have htn : ((i : Nat) : Int).toNat = i := Int.toNat_natCast i
      rw [htn, hget]
      dsimp only
      split
      · rfl
      · split
        · rfl
        · split
          · rfl
          · simp [hsum]

theorem repeatTrigger_of_quiescent (st : MsSettings) (gen : String → Option String)
    (chat : List MsMessage)
    (h : triggerAutoSummarizeCounted st gen chat = (chat, 0)) :
    ∀ n, repeatTrigger st gen n chat = (chat, 0) := by
  intro n
  induction n with
  | zero => rfl
  | succ n ih =>
    unfold repeatTrigger
    rw [h]
    dsimp only
    rw [ih]
    rfl

theorem get?_lt_length {α : Type} (l : List α) (i : Nat) (a : α)
    (h : l.get? i = some a) : i < l.length := by
  by_contra hge
  rw [List.get?_eq_none.mpr (Nat.le_of_not_lt hge)] at h
  exact Option.noConfusion h

/-- With a generator that fulfills with a fixed result of nonempty trim,
one trigger either changes nothing and calls nothing, or calls once and
leaves a chat on which a further trigger changes nothing and calls
nothing. -/
theorem trigger_step_cases (st : MsSettings) (gen : String → Option String)
    (r : String) (hg : ∀ p, gen p = some r) (ht : jsTrim r ≠ "")
    (chat : List MsMessage) :
    triggerAutoSummarizeCounted st gen chat = (chat, 0) ∨
    ((triggerAutoSummarizeCounted st gen chat).2 = 1 ∧
      triggerAutoSummarizeCounted st gen (triggerAutoSummarizeCounted st gen chat).1 =
        ((triggerAutoSummarizeCounted st gen chat).1, 0)) := by
  by_cases hA : st.enabled = false ∨ st.autoSummarize = false
  · left
    simp only [triggerAutoSummarizeCounted, if_pos hA]
  by_cases hB : chat.isEmpty = true
  · left
    simp only [triggerAutoSummarizeCounted, if_neg hA, if_pos hB]
  by_cases hC : ((chat.length : Int) - 1 - (st.messageLag : Int)) < 0
  · left
    simp only [triggerAutoSummarizeCounted, if_neg hA, if_neg hB, if_pos hC]
  cases hget : chat.get? ((chat.length : Int) - 1 - (st.messageLag : Int)).toNat with
  | none =>
    left
    simp only [triggerAutoSummarizeCounted, if_neg hA, if_neg hB, if_neg hC, hget]
  | some tm =>
    by_cases hD : (tm.is_system = true ∧ st.includeSystemMessages = false)
    · left
      simp only [triggerAutoSummarizeCounted, if_neg hA, if_neg hB, if_neg hC, hget,
        if_pos hD]
    by_cases hE : (tm.is_user = false ∧ tm.is_system = false
        ∧ st.includeCharacterMessages = false)
    · left
      simp only [triggerAutoSummarizeCounted, if_neg hA, if_neg hB, if_neg hC, hget,
        if_neg hD, if_pos hE]
    by_cases hF : (tm.is_user = true ∧ st.includeUserMessages = false)
    · left
      simp only [triggerAutoSummarizeCounted, if_neg hA, if_neg hB, if_neg hC, hget,
        if_neg hD, if_neg hE, if_pos hF]
    by_cases hG : hasSummary tm = true
    · left
      simp only [triggerAutoSummarizeCounted, if_neg hA, if_neg hB, if_neg hC, hget,
        if_neg hD, if_neg hE, if_neg hF, if_pos hG]
    by_cases hH : (tm.mes = "" ∨ tm.mes.length < st.messageThreshold)
    · left
      simp only [triggerAutoSummarizeCounted, if_neg hA, if_neg hB, if_neg hC, hget,
        if_neg hD, if_neg hE, if_neg hF, if_neg hG, if_pos hH]
    · right
      have hne : r ≠ "" := jsTrim_ne_empty r ht
      have hcall : triggerAutoSummarizeCounted st gen chat =
          (chat.set ((chat.length : Int) - 1 - (st.messageLag : Int)).toNat
            { tm with summary := some (jsTrim r) }, 1) := by
        simp only [triggerAutoSummarizeCounted, if_neg hA, if_neg hB, if_neg hC, hget,
          if_neg hD, if_neg hE, if_neg hF, if_neg hG, if_neg hH,
          generateSummaryForMessage, hg, if_neg hne]
      rw [hcall]
      refine ⟨rfl, ?_⟩
      have hlt : ((chat.length : Int) - 1 - (st.messageLag : Int)).toNat < chat.length :=
        get?_lt_length chat _ tm hget
      apply trigger_skip_of_annotated st gen _
        ((chat.length : Int) - 1 - (st.messageLag : Int)).toNat
        { tm with summary := some (jsTrim r) }
      · rw [List.length_set, Int.toNat_of_nonneg (not_lt.mp hC)]
      · exact List.get?_set_eq_of_lt _ hlt
      · simp [hasSummary, ht]

theorem repeatTrigger_at_most_one (st : MsSettings) (gen : String → Option String)
    (r : String) (hg : ∀ p, gen p = some r) (ht : jsTrim r ≠ "") :
    ∀ (n : Nat) (chat : List MsMessage), (repeatTrigger st gen n chat).2 ≤ 1 := by
  intro n
  induction n with
  | zero => intro chat; exact Nat.zero_le 1
  | succ n ih =>
    intro chat
    rcases trigger_step_cases st gen r hg ht chat with h | ⟨h1, h2⟩
    · unfold repeatTrigger
      rw [h]
      dsimp only
      rw [Nat.zero_add]
      exact ih chat
    · unfold repeatTrigger
      dsimp only
      rw [repeatTrigger_of_quiescent st gen _ h2 n, h1]
      exact le_refl 1

/-- C10 (amended): a trigger whose target message already carries a
summary annotation performs no generation call and changes nothing; and
once a trigger's generation call fulfills with a result of nonempty trim,
repeated trigger invocations on the otherwise unchanged chat perform at
most one generation call in total — a failing or empty generation,
however, is retried by the next trigger. -/
theorem c10_skip_when_annotated :
    (∀ (st : MsSettings) (gen : String → Option String) (chat : List MsMessage)
        (i : Nat) (m : MsMessage),
        ((chat.length : Int) - 1 - (st.messageLag : Int)) = (i : Int) →
        chat.get? i = some m →
        hasSummary m = true →
        triggerAutoSummarizeCounted st gen chat = (chat, 0)) ∧
    (∀ (st : MsSettings) (gen : String → Option String) (r : String) (n : Nat)
        (chat : List MsMessage),
        (∀ p, gen p = some r) → jsTrim r ≠ "" →
        (repeatTrigger st gen n chat).2 ≤ 1) :=
  ⟨trigger_skip_of_annotated,
    fun st gen r n chat hg ht => repeatTrigger_at_most_one st gen r hg ht n chat⟩

/-- Counterexample to C10 as stated: with a generator that rejects every
call, two triggers on the same unchanged one-message chat perform two
generation calls for the same message index. -/
theorem c10_counterexample : ¬ c10ClaimStatement := by
  intro h
  exact absurd (h.2 stMS genNoneMS 2 chatMS) (by decide)

/-- Witness for the amended C10: the annotated-skip case and the
successful-generation case, both concrete. -/
theorem c10_witness :
    ((chatAnnotated.length : Int) - 1 - (stMS.messageLag : Int)) = ((0 : Nat) : Int) ∧
      chatAnnotated.get? 0 = some msgAnnotated ∧
      hasSummary msgAnnotated = true ∧
      triggerAutoSummarizeCounted stMS genGoodMS chatAnnotated = (chatAnnotated, 0) ∧
      jsTrim "A summary." ≠ "" ∧
      (repeatTrigger stMS genGoodMS 3 chatMS).2 ≤ 1 :=
  ⟨by decide, rfl, by decide,
    c10_skip_when_annotated.1 stMS genGoodMS chatAnnotated 0 msgAnnotated (by decide)
      rfl (by decide),
    by decide,
    c10_skip_when_annotated.2 stMS genGoodMS "A summary." 3 chatMS (fun p => rfl)
      (by decide)⟩

end MemSum

namespace Rag

theorem mem_insertByScoreDesc (x : Scored) (l : List Scored) (y : Scored) :
    y ∈ insertByScoreDesc x l ↔ y = x ∨ y ∈ l := by
  induction l with
  | nil => simp [insertByScoreDesc]
  | cons z zs ih =>
    unfold insertByScoreDesc
    split
    · simp [List.mem_cons]
    · simp only [List.mem_cons, ih]
      tauto

theorem insertByScoreDesc_sorted (x : Scored) (l : List Scored)
    (h : l.Pairwise (fun a b => b.score ≤ a.score)) :
    (insertByScoreDesc x l).Pairwise (fun a b => b.score ≤ a.score) := by
  induction l with
  | nil => simp [insertByScoreDesc]
  | cons z zs ih =>
    rcases List.pairwise_cons.mp h with ⟨hz, hzs⟩
    unfold insertByScoreDesc
    split
    · rename_i hle
      refine List.pairwise_cons.mpr ⟨?_, h⟩
      intro y hy
      rcases List.mem_cons.mp hy with rfl | hy2
      · exact hle
      · exact le_trans (hz y hy2) hle
    · rename_i hgt
      refine List.pairwise_cons.mpr ⟨?_, ih hzs⟩
      intro y hy
      rcases (mem_insertByScoreDesc x zs y).mp hy with rfl | hy2
      · exact le_of_lt (not_le.mp hgt)
      · exact hz y hy2

theorem sortByScoreDesc_sorted (l : List Scored) :
    (sortByScoreDesc l).Pairwise (fun a b => b.score ≤ a.score) := by
  induction l with
  | nil => exact List.Pairwise.nil
  | cons x xs ih => exact insertByScoreDesc_sorted x _ ih

theorem mem_lexInsert (x : Nat × Scored) (l : List (Nat × Scored))
    (y : Nat × Scored) : y ∈ lexInsert x l ↔ y = x ∨ y ∈ l := by
  induction l with
  | nil => simp [lexInsert]
  | cons z zs ih =>
    unfold lexInsert
    split
    · simp [List.mem_cons]
    · simp only [List.mem_cons, ih]
      tauto

theorem lexInsert_map_snd (x : Nat × Scored) (l : List (Nat × Scored))
    (hidx : ∀ p ∈ l, x.1 < p.1) :
    (lexInsert x l).map Prod.snd = insertByScoreDesc x.2 (l.map Prod.snd) := by
  induction l with
  | nil => rfl
  | cons y ys ih =>
    have hxy : x.1 < y.1 := hidx y (List.mem_cons_self y ys)
    simp only [List.map_cons]
    by_cases hcond : y.2.score ≤ x.2.score
    · have hlex : y.2.score < x.2.score ∨ (x.2.score = y.2.score ∧ x.1 < y.1) := by
        rcases lt_or_eq_of_le hcond with h | h
        · exact Or.inl h
        · exact Or.inr ⟨h.symm, hxy⟩
      simp only [lexInsert, insertByScoreDesc, if_pos hlex, if_pos hcond, List.map_cons]
    · have hlex : ¬(y.2.score < x.2.score ∨ (x.2.score = y.2.score ∧ x.1 < y.1)) := by
        intro hor
        rcases hor with h | ⟨h, _⟩
        · exact hcond (le_of_lt h)
        · exact hcond (le_of_eq h.symm)
      simp only [lexInsert, insertByScoreDesc, if_neg hlex, if_neg hcond, List.map_cons]
      rw [ih (fun p hp => hidx p (List.mem_cons_of_mem y hp))]

theorem mem_lexSort (l : List (Nat × Scored)) (y : Nat × Scored) :
    y ∈ lexSort l ↔ y ∈ l := by
  induction l with
  | nil => simp [lexSort]
  | cons x xs ih =>
    unfold lexSort
    rw [mem_lexInsert]
    simp [ih]

theorem lexSort_map_snd (l : List (Nat × Scored))
    (h : l.Pairwise (fun p q => p.1 < q.1)) :
    (lexSort l).map Prod.snd = sortByScoreDesc (l.map Prod.snd) := by
  induction l with
  | nil => rfl
  | cons x xs ih =>
    rcases List.pairwise_cons.mp h with ⟨hx, hxs⟩
    show (lexInsert x (lexSort xs)).map Prod.snd =
      insertByScoreDesc x.2 (sortByScoreDesc (xs.map Prod.snd))
    rw [lexInsert_map_snd x (lexSort xs) (fun p hp => hx p ((mem_lexSort xs p).mp hp))]
    rw [ih hxs]

theorem filter_eq_takeWhile_sorted (t : Real) (l : List Scored)
    (h : l.Pairwise (fun a b => b.score ≤ a.score)) :
    l.filter (fun m => t < m.score) = l.takeWhile (fun m => t < m.score) := by
  induction l with
  | nil => rfl
  | cons x xs ih =>
    rcases List.pairwise_cons.mp h with ⟨hx, hxs⟩
    by_cases hq : t < x.score
    · rw [List.filter_cons_of_pos (by simpa using hq),
        List.takeWhile_cons_of_pos (by simpa using hq), ih hxs]
    · rw [List.filter_cons_of_neg (by simpa using hq),
        List.takeWhile_cons_of_neg (by simpa using hq)]
      refine List.filter_eq_nil.mpr ?_
      intro y hy
      simp only [decide_eq_true_eq]
      exact not_lt.mpr (le_trans (hx y hy) (not_lt.mp hq))

theorem takeWhile_take (q : Scored → Bool) (l : List Scored) :
    ∀ k : Nat, (l.take k).takeWhile q = (l.takeWhile q).take k := by
  induction l with
  | nil => intro k; simp
  | cons x xs ih =>
    intro k
    cases k with
    | zero => simp
    | succ k =>
      by_cases hq : q x = true
      · rw [List.take_succ_cons, List.takeWhile_cons_of_pos hq,
          List.takeWhile_cons_of_pos hq, List.take_succ_cons, ih k]
      · rw [List.take_succ_cons, List.takeWhile_cons_of_neg (by simpa using hq),
          List.takeWhile_cons_of_neg (by simpa using hq)]
        simp

theorem filter_map_snd (t : Real) (l : List (Nat × Scored)) :
    (l.filter (fun p => t < p.2.score)).map Prod.snd =
      (l.map Prod.snd).filter (fun m => t < m.score) := by
  induction l with
  | nil => rfl
  | cons x xs ih =>
    by_cases hq : t < x.2.score
    · rw [List.filter_cons_of_pos (by simpa using hq), List.map_cons, List.map_cons,
        List.filter_cons_of_pos (by simpa using hq), ih]
    · rw [List.filter_cons_of_neg (by simpa using hq), List.map_cons,
        List.filter_cons_of_neg (by simpa using hq), ih]

/-- C6 (amended): retrieval returns exactly the top-`k` (k = `ragdepth`)
entries whose cosine score is *strictly greater* than the fixed threshold
`0.7`, in descending score order with ties broken by insertion order
(the earlier-inserted entry wins). -/
theorem c6_retrieval_strict_threshold (store : List RagEntry)
    (qvec : List Real) (k : Nat) :
    retrieveMatches store qvec k = specRetrieveStrict store qvec k := by
  unfold retrieveMatches specRetrieveStrict
  rw [List.map_take, filter_map_snd,
    lexSort_map_snd _ (withIndices_pairwise_fst 0 _), withIndices_map_snd]
  rw [filter_eq_takeWhile_sorted _ _
    ((sortByScoreDesc_sorted _).sublist (List.take_sublist k _))]
  rw [takeWhile_take, ← filter_eq_takeWhile_sorted _ _ (sortByScoreDesc_sorted _)]

/-- The cosine score of the concrete store entry against the concrete
query: `(1*3 + 3*1) / (sqrt 10 * sqrt 10) = 3/5`. -/
theorem cosSim_concrete : cosineSimilarity ragQuery [3, 1] = 3 / 5 := by
  show cosineSimilarity [1, 3] [3, 1] = 3 / 5
  unfold cosineSimilarity
  rw [if_neg (by norm_num)]
  simp only [List.zip_cons_cons, List.zip_nil_right, List.map_cons, List.map_nil,
    List.sum_cons, List.sum_nil]
  rw [show (1 : Real) * 3 + (3 * 1 + 0) = 6 by norm_num,
    show (1 : Real) * 1 + (3 * 3 + 0) = 10 by norm_num,
    show (3 : Real) * 3 + (1 * 1 + 0) = 10 by norm_num,
    Real.mul_self_sqrt (by norm_num : (0 : Real) ≤ 10)]
  norm_num

/-- Counterexample to C6 as stated: the entry scores `3/5`, which is at
least the minimum score `1/2`, yet the code's fixed strict threshold
`0.7` rejects it — the code returns nothing where the claim returns the
entry. -/
theorem c6_counterexample : ¬ c6ClaimStatement := by
  intro h
  have h2 := h ragStore ragQuery 1 (1 / 2)
  have hL : retrieveMatches ragStore ragQuery 1 = [] := by
    unfold retrieveMatches scoredEntries
    simp only [ragStore, List.map_cons, List.map_nil, cosSim_concrete]
    simp only [sortByScoreDesc, insertByScoreDesc, List.take_succ_cons, List.take_nil]
    rw [List.filter_cons_of_neg (by norm_num), List.filter_nil]
  have hR : specRetrieve ragStore ragQuery 1 (1 / 2) = [⟨"memoryA", 3 / 5⟩] := by
    unfold specRetrieve scoredEntries
    simp only [ragStore, List.map_cons, List.map_nil, cosSim_concrete, withIndices,
      lexSort, lexInsert]
    rw [List.filter_cons_of_pos (by norm_num), List.filter_nil]
    rfl
  rw [hL, hR] at h2
  exact List.noConfusion h2

end Rag

end Stmem
